import Mathlib

/-!
Verification of the Maven dependency-graph visualizer
(`dependency_visualizer.py`) against its specification.

The Python source is shallowly embedded below.  Python strings are modelled
as Lean `String`s, but every string operation the source uses
(`split`, `strip`, `rstrip`, `replace`, `re.sub`) is re-implemented here over
`List Char` with Python's semantics, so that all definitions are executable
by kernel reduction.  Parsed XML documents (`xml.etree.ElementTree` elements)
are modelled by the inductive `XmlElem`; element tags carry the Clark
notation namespace marker exactly as `ElementTree` reports them.  Network
access (`fetch_pom`) is modelled by an oracle `String → Option XmlElem`
mapping a URL to the parsed document, `none` standing for any absent
descriptor (network failure, non-200 status, or parse error).  A Python
exception escaping a function is modelled by an `Except`/`Option`/status
value.
-/

/-! ### Python-faithful character-list string primitives -/

/-- Python `str.split(sep)` for a one-character separator, on char lists:
`"a:b:".split(':') == ['a','b','']`, `"".split(':') == ['']`. -/
def splitChar (sep : Char) : List Char → List (List Char)
  | [] => [[]]
  | c :: rest =>
    match splitChar sep rest with
    | [] => if c = sep then [[], []] else [[c]]
    | h :: t => if c = sep then [] :: h :: t else (c :: h) :: t

/-- The whitespace characters Python `str.strip()` removes (ASCII part). -/
def pySpace (c : Char) : Bool :=
  c = ' ' ∨ c = '\t' ∨ c = '\n' ∨ c = '\x0d' ∨ c = '\x0b' ∨ c = '\x0c'

/-- Python `str.strip()` on char lists. -/
def pyStripChars (l : List Char) : List Char :=
  ((l.dropWhile pySpace).reverse.dropWhile pySpace).reverse

/-- Python `str.strip()`. -/
def pyStrip (s : String) : String := String.mk (pyStripChars s.data)

/-- Python `str.rstrip('/')` : drop all trailing slashes. -/
def rstripSlash (s : String) : String :=
  String.mk ((s.data.reverse.dropWhile (fun c => c = '/')).reverse)

/-- Python `str.replace(old, new)` for a one-character pattern. -/
def replaceChar (old : Char) (new : List Char) (s : String) : String :=
  String.mk (s.data.flatMap (fun c => if c = old then new else [c]))

/-! ### XML document model -/

/-- A parsed XML element: tag (in `ElementTree` Clark notation for
namespaced documents), text content (`none` when the element has no text
node, as `ElementTree` reports for `<scope/>`), and child elements. -/
inductive XmlElem where
  | mk (tag : String) (text : Option String) (children : List XmlElem)

def XmlElem.tag : XmlElem → String
  | .mk t _ _ => t

def XmlElem.text : XmlElem → Option String
  | .mk _ x _ => x

def XmlElem.children : XmlElem → List XmlElem
  | .mk _ _ cs => cs

mutual
/-- All proper descendants of an element, in document order. -/
def XmlElem.descendants : XmlElem → List XmlElem
  | .mk _ _ cs => descList cs
/-- Each element of the list followed by its descendants, in document order. -/
def descList : List XmlElem → List XmlElem
  | [] => []
  | c :: rest => c :: (c.descendants ++ descList rest)
end

/-- `ElementTree` `findall('.//t1/t2')`: the `t2`-tagged children of every
descendant tagged `t1`, in document order. -/
def findallDD (root : XmlElem) (t1 t2 : String) : List XmlElem :=
  (root.descendants.filter (fun e => e.tag = t1)).flatMap
    (fun e => e.children.filter (fun c => c.tag = t2))

/-- `ElementTree` `findall('.//t1/*')`: all children of every descendant
tagged `t1`, in document order. -/
def findallDStar (root : XmlElem) (t1 : String) : List XmlElem :=
  (root.descendants.filter (fun e => e.tag = t1)).flatMap XmlElem.children

/-- `ElementTree` `find(tag)` for a plain tag path: the first direct child
with the given tag, or `none`. -/
def findChild (e : XmlElem) (t : String) : Option XmlElem :=
  e.children.find? (fun c => c.tag = t)

/-- The POM namespace marker as `ElementTree` renders it in tags. -/
def mavenNs : String := "\x7bhttp://maven.apache.org/POM/4.0.0\x7d"

/-- Qualify a local tag name with the POM namespace (the `'m:'`-prefixed
paths of the source, resolved the way `ElementTree` matches them). -/
def mvn (t : String) : String := mavenNs ++ t

/-! ### construct_pom_url -/

/-- `construct_pom_url` from the source.  The raised `ValueError` is
modelled as `Except.error` carrying the exception's message. -/
def construct_pom_url (package_coord repo_url : String) : Except String String :=
  match (splitChar ':' package_coord.data).map String.mk with
  | [group_id, artifact_id, version] =>
    let group_path := replaceChar '.' ['/'] group_id
    let pom_filename := artifact_id ++ "-" ++ version ++ ".pom"
    .ok (rstripSlash repo_url ++ "/" ++ group_path ++ "/" ++ artifact_id ++ "/"
          ++ version ++ "/" ++ pom_filename)
  | _ =>
    .error ("Неверный формат имени пакета: " ++ package_coord
            ++ ". Ожидается groupId:artifactId:version")

/-! ### extract_properties -/

/-- The namespace-removal step of `extract_properties`:
`if '}' in tag: tag = tag.split('}', 1)[1]`. -/
def stripNsTag (tag : String) : String :=
  if '\x7d' ∈ tag.data then
    String.mk ((tag.data.dropWhile (fun c => ¬ c = '\x7d')).drop 1)
  else tag

/-- Python `dict` assignment `d[k] = v` on an insertion-ordered
association list: overwrite in place if the key exists, else append. -/
def dictSet (props : List (String × String)) (k v : String) :
    List (String × String) :=
  if props.any (fun p => p.1 = k) then
    props.map (fun p => if p.1 = k then (k, v) else p)
  else props ++ [(k, v)]

/-- `extract_properties` from the source: children of every (namespaced,
else plain) `properties` descendant; keys stripped of the namespace
marker; only truthy texts, stripped, are recorded. -/
def extract_properties (pom_tree : XmlElem) : List (String × String) :=
  let nodes := findallDStar pom_tree (mvn "properties")
  let nodes := if nodes.isEmpty then findallDStar pom_tree "properties" else nodes
  nodes.foldl (fun props prop =>
    match prop.text with
    | some t => if t = "" then props else dictSet props (stripNsTag prop.tag) (pyStrip t)
    | none => props) []

/-! ### substitute_properties -/

/-- Python `properties.get(k, dflt)`. -/
def propGet (props : List (String × String)) (k dflt : String) : String :=
  match props.find? (fun p => p.1 = k) with
  | some p => p.2
  | none => dflt

/-- The scanner of `re.sub(r'\$\x7b([^\x7d]+)\x7d', replacer, text)`:
one left-to-right pass; `some pend` is the (reversed) group collected so
far after an opening `'$','\x7b'`; matched groups are replaced through
`propGet` with the whole match as the default (occurrences with no
matching key stay verbatim), and replacement values are never rescanned. -/
def substGo (props : List (String × String)) : List Char → Option (List Char) → List Char
  | [], none => []
  | [], some pend => '$' :: '\x7b' :: pend.reverse
  | c :: rest, some pend =>
    if c = '\x7d' then
      if pend = [] then '$' :: '\x7b' :: '\x7d' :: substGo props rest none
      else
        (propGet props (String.mk pend.reverse)
          (String.mk ('$' :: '\x7b' :: (pend.reverse ++ ['\x7d'])))).data
        ++ substGo props rest none
    else substGo props rest (some (c :: pend))
  | '$' :: '\x7b' :: rest2, none => substGo props rest2 (some [])
  | c :: rest, none => c :: substGo props rest none

/-- `substitute_properties` from the source. -/
def substitute_properties (text : String) (properties : List (String × String)) : String :=
  String.mk (substGo properties text.data none)

/-! ### extract_dependencies -/

/-- Outcome of processing one `<dependency>` declaration in the loop of
`extract_dependencies`: the element is skipped, a coordinate is appended,
or the scope check raises `AttributeError` (`scope.text` is `None`). -/
inductive DepStep where
  | crash
  | skip
  | emit (coord : String)

/-- The body of the `extract_dependencies` loop after the scope check
passed: the incomplete-declaration skip, text extraction, version
resolution and coordinate formatting of the source. -/
def depAfterScope (props : List (String × String)) (dep : XmlElem) : DepStep :=
  match findChild dep (mvn "groupId"), findChild dep (mvn "artifactId") with
  | some g, some a =>
    let group_id_text := match g.text with
      | some t => if t = "" then "" else pyStrip t
      | none => ""
    let artifact_id_text := match a.text with
      | some t => if t = "" then "" else pyStrip t
      | none => ""
    let version_text : Option String :=
      match findChild dep (mvn "version") with
      | some v =>
        match v.text with
        | some t => if t = "" then none else some (pyStrip t)
        | none => none
      | none => none
    let version_text : Option String :=
      match version_text with
      | some s => if s = "" then some s else some (substitute_properties s props)
      | none => none
    match version_text with
    | none => .skip
    | some vt => .emit (group_id_text ++ ":" ++ artifact_id_text ++ ":" ++ vt)
  | _, _ => .skip

/-- One iteration of the `extract_dependencies` loop: the scope filter of
the source (`scope.text.strip() not in ('compile', 'runtime', 'system')`),
which dereferences `scope.text` without a `None` check. -/
def extractDep (props : List (String × String)) (dep : XmlElem) : DepStep :=
  match findChild dep (mvn "scope") with
  | some sc =>
    match sc.text with
    | none => .crash
    | some t =>
      if pyStrip t = "compile" ∨ pyStrip t = "runtime" ∨ pyStrip t = "system"
      then depAfterScope props dep
      else .skip
  | none => depAfterScope props dep

/-- `extract_dependencies` from the source.  `none` models the
`AttributeError` raised by the scope check escaping the function. -/
def extract_dependencies (pom_tree : XmlElem) : Option (List String) :=
  let dependency_nodes := findallDD pom_tree (mvn "dependencies") (mvn "dependency")
  let dependency_nodes :=
    if dependency_nodes.isEmpty then findallDD pom_tree "dependencies" "dependency"
    else dependency_nodes
  let props := extract_properties pom_tree
  dependency_nodes.foldl (fun acc dep =>
    match acc with
    | none => none
    | some ds =>
      match extractDep props dep with
      | .crash => none
      | .skip => some ds
      | .emit c => some (ds ++ [c])) (some [])

/-! ### build_dependency_graph -/

/-- The mutable state threaded through `build_dependency_graph`:
the graph accumulator (a `defaultdict(set)`, modelled as an
insertion-ordered association list with duplicate-free edge lists),
the visited set, and an instrumentation log of the coordinates for
which `fetch_pom` was called, in call order. -/
structure BuildState where
  graph : List (String × List String)
  visited : List String
  fetched : List String

/-- The keys of the graph accumulator. -/
def graphKeys (g : List (String × List String)) : List String := g.map Prod.fst

/-- `graph[k]` on a `defaultdict(set)` evaluated for effect only:
creates the key with an empty set when missing. -/
def ensureKey (g : List (String × List String)) (k : String) :
    List (String × List String) :=
  if g.any (fun e => e.1 = k) then g else g ++ [(k, [])]

/-- `graph[k].add(v)` on a `defaultdict(set)`. -/
def addEdge (g : List (String × List String)) (k v : String) :
    List (String × List String) :=
  if g.any (fun e => e.1 = k) then
    g.map (fun e => if e.1 = k then (e.1, if v ∈ e.2 then e.2 else e.2 ++ [v]) else e)
  else g ++ [(k, [v])]

/-- How one call of `build_dependency_graph` ends: normal return, a Python
exception propagating out (`ValueError` from `construct_pom_url`, or the
scope-check `AttributeError`), or exhaustion of the recursion allowance
`fuel` of the embedding. -/
inductive BuildStatus where
  | ok
  | err (msg : String)
  | fuelOut
deriving DecidableEq

/-- The `for dep in dependencies:` loop of `build_dependency_graph`:
add the edge, then recurse through `step`; an exception (or fuel
exhaustion) inside the loop aborts it and propagates. -/
def buildDeps (step : String → BuildState → BuildStatus × BuildState)
    (parent : String) : List String → BuildState → BuildStatus × BuildState
  | [], st => (.ok, st)
  | dep :: rest, st =>
    let st1 : BuildState := { st with graph := addEdge st.graph parent dep }
    match step dep st1 with
    | (.ok, st2) => buildDeps step parent rest st2
    | r => r

/-- `build_dependency_graph` from the source, with `fetch_pom` abstracted
as `oracle` and an explicit recursion allowance `fuel` counting nested
levels of descriptor-fetching calls (the source has no such bound; the
theorems below show `max_depth + 1` levels always suffice, which is the
source's termination argument). -/
def build_dependency_graph (oracle : String → Option XmlElem)
    (repo_url : String) (max_depth : Int) :
    Nat → Int → String → BuildState → BuildStatus × BuildState
  | 0, current_depth, package_coord, st =>
    if current_depth > max_depth then (.ok, st)
    else if package_coord ∈ st.visited then (.ok, st)
    else (.fuelOut, st)
  | fuel + 1, current_depth, package_coord, st =>
    if current_depth > max_depth then (.ok, st)
    else if package_coord ∈ st.visited then (.ok, st)
    else
      let st1 : BuildState := { st with visited := package_coord :: st.visited }
      match construct_pom_url package_coord repo_url with
      | .error msg => (.err msg, st1)
      | .ok pom_url =>
        let st2 : BuildState := { st1 with fetched := st1.fetched ++ [package_coord] }
        match oracle pom_url with
        | none => (.ok, { st2 with graph := ensureKey st2.graph package_coord })
        | some pom_tree =>
          match extract_dependencies pom_tree with
          | none => (.err "AttributeError: NoneType has no attribute strip", st2)
          | some dependencies =>
            buildDeps (build_dependency_graph oracle repo_url max_depth fuel (current_depth + 1))
              package_coord dependencies st2

/-! ### generate_graphviz_dot -/

/-- The `parent.replace('"', '\\"')` escaping of `generate_graphviz_dot`. -/
def escQuote (s : String) : String := replaceChar '"' ['\\', '"'] s

/-- One directed-edge statement of the DOT output. -/
def edgeStmt (parent child : String) : String :=
  "    \"" ++ escQuote parent ++ "\" -> \"" ++ escQuote child ++ "\";\n"

/-- `generate_graphviz_dot` from the source. -/
def generate_graphviz_dot (graph : List (String × List String)) : String :=
  "digraph G \x7b\n    node [shape=box];\n"
  ++ String.join (graph.flatMap (fun e => e.2.map (fun child => edgeStmt e.1 child)))
  ++ "\x7d\n"

/-- The (parent, child) pairs recorded in a graph, in storage order. -/
def graphPairs (g : List (String × List String)) : List (String × String) :=
  g.flatMap (fun e => e.2.map (fun c => (e.1, c)))

/-! ### Auxiliary definitions for the theorems -/

/-- Invariant carried through a build: no coordinate was fetched twice, and
every fetched coordinate is in the visited set. -/
def FetchInv (st : BuildState) : Prop :=
  st.fetched.Nodup ∧ ∀ c ∈ st.fetched, c ∈ st.visited

/-- The coordinate's descriptor fetch succeeds and extraction yields zero
qualifying dependencies (the one situation in which the source never touches
`graph[package_coord]`). -/
def zeroDepsFetch (oracle : String → Option XmlElem) (repo : String) (c : String) : Prop :=
  ∃ url tree, construct_pom_url c repo = .ok url ∧ oracle url = some tree
    ∧ extract_dependencies tree = some []

/-- The literal placeholder text for a property name, dollar-brace-name-brace. -/
def phString (name : String) : String := "$" ++ "\x7b" ++ name ++ "\x7d"

/-- Whether a build run ended because the embedding's recursion allowance ran
out (never happens with allowance `max_depth + 1`, see the C3 theorem). -/
def BuildStatus.isTruncated : BuildStatus → Bool
  | .fuelOut => true
  | _ => false

/-- The `ValueError` message of `construct_pom_url`, naming the offending
coordinate string. -/
def coordErrorMsg (package_coord : String) : String :=
  "Неверный формат имени пакета: " ++ package_coord ++ ". Ожидается groupId:artifactId:version"

-- C1

/-- A namespaced leaf element with text, as parsed from a POM. -/
def nsLeaf (t v : String) : XmlElem := .mk (mvn t) (some v) []

/-- A namespaced `<dependency>` declaration with groupId, artifactId and
version children and no scope element. -/
def depDecl (g a v : String) : XmlElem :=
  .mk (mvn "dependency") none [nsLeaf "groupId" g, nsLeaf "artifactId" a, nsLeaf "version" v]

/-- A namespaced `<dependency>` declaration carrying an explicit scope text. -/
def depDeclS (g a v sc : String) : XmlElem :=
  .mk (mvn "dependency") none
    [nsLeaf "groupId" g, nsLeaf "artifactId" a, nsLeaf "version" v, nsLeaf "scope" sc]

/-- A POM whose only dependency declaration sits inside a
`<dependencyManagement>` section; it has no top-level `<dependencies>`. -/
def dmOnlyPom (g a v : String) : XmlElem :=
  .mk (mvn "project") none
    [.mk (mvn "dependencyManagement") none
      [.mk (mvn "dependencies") none [depDecl g a v]]]

/-- A POM with an empty `<dependencies>` list: fetch succeeds, extraction
yields zero dependencies. -/
def pomEmptyDeps : XmlElem :=
  .mk (mvn "project") (some "\n") [.mk (mvn "dependencies") none []]

/-- Oracle serving `pomEmptyDeps` for the root coordinate g:a:1 and absent
for everything else. -/
def oracleZeroDeps (url : String) : Option XmlElem :=
  if url = "http://r/g/a/1/a-1.pom" then some pomEmptyDeps else none

/-- A POM declaring exactly one compile-scope (unspecified) dependency d:d:1. -/
def pomOneDep : XmlElem :=
  .mk (mvn "project") none [.mk (mvn "dependencies") none [depDecl "d" "d" "1"]]

/-- Oracle serving `pomOneDep` for the root coordinate g:a:1 and absent for
everything else. -/
def oracleOneDep (url : String) : Option XmlElem :=
  if url = "http://r/g/a/1/a-1.pom" then some pomOneDep else none

/-- A POM declaring one dependency whose version text is an unresolvable
property placeholder and which declares no properties. -/
def pomVerbatimVersion : XmlElem :=
  .mk (mvn "project") none [.mk (mvn "dependencies") none [depDecl "g" "a" "$\x7bu\x7d"]]

/-- A well-formed POM whose single dependency declaration carries a scope
element with no text content, as `ElementTree` parses an empty scope tag. -/
def pomScopeNoText : XmlElem :=
  .mk (mvn "project") none
    [.mk (mvn "dependencies") none
      [.mk (mvn "dependency") none
        [nsLeaf "groupId" "g", nsLeaf "artifactId" "a", nsLeaf "version" "1",
         .mk (mvn "scope") none []]]]

/-! ### Helper lemmas -/

theorem substGo_nil_none (props) : substGo props [] none = [] := rfl

theorem substGo_cons_ne (props) (c : Char) (rest : List Char) (h : c ≠ '$') :
    substGo props (c :: rest) none = c :: substGo props rest none := by
  cases rest with
  | nil => simp [substGo, h]
  | cons d rest2 => simp [substGo, h]

theorem substGo_open (props) (rest : List Char) :
    substGo props ('$' :: '\x7b' :: rest) none = substGo props rest (some []) := by
  simp [substGo]

theorem substGo_pend_ne (props) (c : Char) (rest : List Char) (pend) (h : c ≠ '\x7d') :
    substGo props (c :: rest) (some pend) = substGo props rest (some (c :: pend)) := by
  simp [substGo, h]

theorem substGo_close (props) (rest : List Char) (pend) (h : pend ≠ []) :
    substGo props ('\x7d' :: rest) (some pend) =
      (propGet props (String.mk pend.reverse)
        (String.mk ('$' :: '\x7b' :: (pend.reverse ++ ['\x7d'])))).data
      ++ substGo props rest none := by
  simp [substGo, h]

theorem substGo_lit (props) (l₁ l₂ : List Char) (h : '$' ∉ l₁) :
    substGo props (l₁ ++ l₂) none = l₁ ++ substGo props l₂ none := by
  induction l₁ with
  | nil => simp
  | cons c l ih =>
    have hc : c ≠ '$' := fun hcc => h (by simp [hcc])
    have hl : '$' ∉ l := fun hm => h (by simp [hm])
    simp only [List.cons_append, substGo_cons_ne props c _ hc, ih hl]

theorem substGo_collect (props) :
    ∀ (name : List Char) (pend post : List Char), '\x7d' ∉ name → pend.reverse ++ name ≠ [] →
    substGo props (name ++ '\x7d' :: post) (some pend) =
      (propGet props (String.mk (pend.reverse ++ name))
        (String.mk ('$' :: '\x7b' :: (pend.reverse ++ name ++ ['\x7d'])))).data
      ++ substGo props post none := by
  intro name
  induction name with
  | nil =>
    intro pend post _ hne
    have hp : pend ≠ [] := by simpa using hne
    simpa using substGo_close props post pend hp
  | cons c name ih =>
    intro pend post hnm hne
    have hc : c ≠ '\x7d' := fun hcc => hnm (by simp [hcc])
    have hn : '\x7d' ∉ name := fun hm => hnm (by simp [hm])
    rw [List.cons_append, substGo_pend_ne props c _ pend hc,
        ih (c :: pend) post hn (by simp)]
    simp

theorem data_append (a b : String) : (a ++ b).data = a.data ++ b.data := rfl

theorem mk_data (s : String) : String.mk s.data = s := rfl

theorem str_ext {a b : String} (h : a.data = b.data) : a = b := by
  cases a; cases b; exact congrArg String.mk h

theorem data_ne_nil_of_ne {s : String} (h : s ≠ "") : s.data ≠ [] := by
  intro hd
  exact h (str_ext (by simpa using hd))

theorem subst_no_dollar (props : List (String × String)) (s : String) (h : '$' ∉ s.data) :
    substitute_properties s props = s := by
  apply str_ext
  have h2 := substGo_lit props s.data [] h
  simpa [substitute_properties, substGo] using h2

-- graphPairs lemmas

theorem pyStrip_of_ends (c₁ c₂ : Char) (xs : List Char)
    (h1 : pySpace c₁ = false) (h2 : pySpace c₂ = false) :
    pyStripChars (c₁ :: (xs ++ [c₂])) = c₁ :: (xs ++ [c₂]) := by
  unfold pyStripChars
  rw [List.dropWhile_cons_of_neg (by simp [h1])]
  rw [show (c₁ :: (xs ++ [c₂])).reverse = c₂ :: (xs.reverse ++ [c₁]) by simp]
  rw [List.dropWhile_cons_of_neg (by simp [h2])]
  simp

theorem phString_data (name : String) :
    (phString name).data = '$' :: ('\x7b' :: name.data ++ ['\x7d']) := by
  simp [phString, data_append]

theorem phString_ne_empty (name : String) : phString name ≠ "" := by
  intro h
  have h2 := congrArg String.data h
  rw [phString_data] at h2
  simp at h2

-- C5

theorem pyStrip_phString (name : String) : pyStrip (phString name) = phString name := by
  apply str_ext
  rw [show (pyStrip (phString name)).data = pyStripChars (phString name).data from rfl]
  rw [phString_data]
  exact pyStrip_of_ends '$' '\x7d' ('\x7b' :: name.data) (by decide) (by decide)

theorem subst_hit (props : List (String × String)) (pre name post : String)
    (hpre : '$' ∉ pre.data) (hname : name ≠ "") (hbr : '\x7d' ∉ name.data)
    (v : String) (hv : props.find? (fun p => p.1 = name) = some (name, v)) :
    substitute_properties (pre ++ "$" ++ "\x7b" ++ name ++ "\x7d" ++ post) props
      = pre ++ v ++ substitute_properties post props := by
  apply str_ext
  have hd : (pre ++ "$" ++ "\x7b" ++ name ++ "\x7d" ++ post).data
      = pre.data ++ ('$' :: '\x7b' :: (name.data ++ '\x7d' :: post.data)) := by
    simp [data_append]
  rw [substitute_properties, hd, substGo_lit props _ _ hpre, substGo_open,
      substGo_collect props name.data [] post.data hbr (by simpa using data_ne_nil_of_ne hname)]
  simp only [List.reverse_nil, List.nil_append, mk_data]
  rw [propGet, hv]
  simp [substitute_properties, data_append]

theorem subst_miss (props : List (String × String)) (pre name post : String)
    (hpre : '$' ∉ pre.data) (hname : name ≠ "") (hbr : '\x7d' ∉ name.data)
    (hv : props.find? (fun p => p.1 = name) = none) :
    substitute_properties (pre ++ "$" ++ "\x7b" ++ name ++ "\x7d" ++ post) props
      = pre ++ "$" ++ "\x7b" ++ name ++ "\x7d" ++ substitute_properties post props := by
  apply str_ext
  have hd : (pre ++ "$" ++ "\x7b" ++ name ++ "\x7d" ++ post).data
      = pre.data ++ ('$' :: '\x7b' :: (name.data ++ '\x7d' :: post.data)) := by
    simp [data_append]
  rw [substitute_properties, hd, substGo_lit props _ _ hpre, substGo_open,
      substGo_collect props name.data [] post.data hbr (by simpa using data_ne_nil_of_ne hname)]
  simp only [List.reverse_nil, List.nil_append, mk_data]
  rw [propGet, hv]
  simp [substitute_properties, data_append]

theorem subst_placeholder_miss (props : List (String × String)) (name : String)
    (hname : name ≠ "") (hbr : '\x7d' ∉ name.data)
    (hv : props.find? (fun p => p.1 = name) = none) :
    substitute_properties (phString name) props = phString name := by
  have h := subst_miss props "" name "" (by simp) hname hbr hv
  have h0 : ("" : String) ++ "$" ++ "\x7b" ++ name ++ "\x7d" ++ "" = phString name := by
    apply str_ext; simp [phString, data_append]
  rw [h0] at h
  rw [h]
  apply str_ext
  simp [phString, data_append, substitute_properties, substGo]

theorem extractDep_noscope (props) (dep : XmlElem)
    (hsc : findChild dep (mvn "scope") = none) :
    extractDep props dep = depAfterScope props dep := by
  simp [extractDep, hsc]

theorem extractDep_scope_ok (props) (dep sc : XmlElem) (s : String)
    (hsc : findChild dep (mvn "scope") = some sc) (hst : sc.text = some s)
    (h : pyStrip s = "compile" ∨ pyStrip s = "runtime" ∨ pyStrip s = "system") :
    extractDep props dep = depAfterScope props dep := by
  simp [extractDep, hsc, hst, h]

theorem extractDep_scope_bad (props) (dep sc : XmlElem) (s : String)
    (hsc : findChild dep (mvn "scope") = some sc) (hst : sc.text = some s)
    (h : ¬(pyStrip s = "compile" ∨ pyStrip s = "runtime" ∨ pyStrip s = "system")) :
    extractDep props dep = .skip := by
  simp [extractDep, hsc, hst, h]

theorem extractDep_scope_crash (props) (dep sc : XmlElem)
    (hsc : findChild dep (mvn "scope") = some sc) (hst : sc.text = none) :
    extractDep props dep = .crash := by
  simp [extractDep, hsc, hst]

theorem depAfterScope_no_version (props) (dep g a : XmlElem)
    (hg : findChild dep (mvn "groupId") = some g)
    (ha : findChild dep (mvn "artifactId") = some a)
    (hv : findChild dep (mvn "version") = none) :
    depAfterScope props dep = .skip := by
  simp [depAfterScope, hg, ha, hv]

theorem depAfterScope_version_textless (props) (dep g a v : XmlElem)
    (hg : findChild dep (mvn "groupId") = some g)
    (ha : findChild dep (mvn "artifactId") = some a)
    (hv : findChild dep (mvn "version") = some v)
    (hvt : v.text = none ∨ v.text = some "") :
    depAfterScope props dep = .skip := by
  rcases hvt with hvt | hvt <;> simp [depAfterScope, hg, ha, hv, hvt]

theorem depAfterScope_emit (props) (dep g a v : XmlElem) (t : String)
    (hg : findChild dep (mvn "groupId") = some g)
    (ha : findChild dep (mvn "artifactId") = some a)
    (hv : findChild dep (mvn "version") = some v)
    (hvt : v.text = some t) (ht : t ≠ "") :
    depAfterScope props dep = .emit
      ((match g.text with | some s => if s = "" then "" else pyStrip s | none => "")
        ++ ":" ++
        (match a.text with | some s => if s = "" then "" else pyStrip s | none => "")
        ++ ":" ++
        (if pyStrip t = "" then pyStrip t else substitute_properties (pyStrip t) props)) := by
  by_cases hs : pyStrip t = "" <;> simp [depAfterScope, hg, ha, hv, hvt, ht, hs]

theorem extractDep_depDecl (props : List (String × String)) (g a v : String)
    (hg : g ≠ "") (ha : a ≠ "") (hv : v ≠ "") (hstrip : pyStrip v = v) (hd : '$' ∉ v.data) :
    extractDep props (depDecl g a v) = .emit (pyStrip g ++ ":" ++ pyStrip a ++ ":" ++ v) := by
  rw [extractDep_noscope props (depDecl g a v) rfl]
  rw [depAfterScope_emit props (depDecl g a v) (nsLeaf "groupId" g) (nsLeaf "artifactId" a)
      (nsLeaf "version" v) v rfl rfl rfl rfl hv]
  have hsv : ¬ pyStrip v = "" := by rw [hstrip]; exact hv
  simp only [nsLeaf, XmlElem.text, if_neg hg, if_neg ha, if_neg hsv, hstrip,
    subst_no_dollar props v hd, if_neg hv]

theorem build_depth_gt (oracle repo maxD fuel depth coord st) (h : depth > maxD) :
    build_dependency_graph oracle repo maxD fuel depth coord st = (.ok, st) := by
  cases fuel <;> simp [build_dependency_graph, h]

theorem buildDeps_of_step_ok (step parent)
    (hstep : ∀ d s, step d s = (.ok, s)) :
    ∀ (deps : List String) (st : BuildState),
      buildDeps step parent deps st
        = (.ok, { st with graph := deps.foldl (fun g d => addEdge g parent d) st.graph }) := by
  intro deps
  induction deps with
  | nil => intro st; simp [buildDeps]
  | cons d rest ih => intro st; simp [buildDeps, hstep, ih]

theorem buildDeps_ne_fuelOut (step parent)
    (hstep : ∀ d s, (step d s).1 ≠ .fuelOut) :
    ∀ (deps : List String) (st : BuildState),
      (buildDeps step parent deps st).1 ≠ .fuelOut := by
  intro deps
  induction deps with
  | nil => intro st; simp [buildDeps]
  | cons d rest ih =>
    intro st
    simp only [buildDeps]
    rcases h : step d { st with graph := addEdge st.graph parent d } with ⟨s, st2⟩
    cases s with
    | ok => exact ih st2
    | err m => simp
    | fuelOut => exact absurd (congrArg Prod.fst h) (by simpa using hstep d _)

theorem build_ne_fuelOut (oracle repo) (maxD : Int) :
    ∀ (fuel : Nat) (depth : Int) (coord : String) (st : BuildState),
      maxD + 1 - depth ≤ (fuel : Int) →
      (build_dependency_graph oracle repo maxD fuel depth coord st).1 ≠ .fuelOut := by
  intro fuel
  induction fuel with
  | zero =>
    intro depth coord st h
    have hd : depth > maxD := by omega
    simp [build_dependency_graph, hd]
  | succ fuel ih =>
    intro depth coord st h
    by_cases hd : depth > maxD
    · simp [build_dependency_graph, hd]
    · by_cases hv : coord ∈ st.visited
      · simp [build_dependency_graph, hd, hv]
      · simp only [build_dependency_graph, if_neg hd, if_neg hv]
        rcases hurl : construct_pom_url coord repo with m | url
        · simp [hurl]
        · rcases hor : oracle url with _ | tree
          · simp [hurl, hor]
          · rcases hex : extract_dependencies tree with _ | deps
            · simp [hurl, hor, hex]
            · simp only [hurl, hor, hex]
              exact buildDeps_ne_fuelOut _ _
                (fun d s => ih (depth + 1) d s (by omega)) deps _

theorem buildDeps_pres (step parent)
    (hstep : ∀ d s, FetchInv s → FetchInv (step d s).2 ∧ s.visited ⊆ (step d s).2.visited) :
    ∀ (deps : List String) (st : BuildState), FetchInv st →
      FetchInv (buildDeps step parent deps st).2
      ∧ st.visited ⊆ (buildDeps step parent deps st).2.visited := by
  intro deps
  induction deps with
  | nil => intro st h; simpa [buildDeps] using h
  | cons d rest ih =>
    intro st h
    have h1 : FetchInv { st with graph := addEdge st.graph parent d } := h
    simp only [buildDeps]
    rcases hs : step d { st with graph := addEdge st.graph parent d } with ⟨s, st2⟩
    have hstep2 := hstep d { st with graph := addEdge st.graph parent d } h1
    rw [hs] at hstep2
    cases s with
    | ok =>
      rcases ih st2 hstep2.1 with ⟨hi, hsub⟩
      exact ⟨hi, fun c hc => hsub (hstep2.2 hc)⟩
    | err m => exact hstep2
    | fuelOut => exact hstep2

theorem build_pres (oracle repo) (maxD : Int) :
    ∀ (fuel : Nat) (depth : Int) (coord : String) (st : BuildState), FetchInv st →
      FetchInv (build_dependency_graph oracle repo maxD fuel depth coord st).2
      ∧ st.visited ⊆ (build_dependency_graph oracle repo maxD fuel depth coord st).2.visited := by
  intro fuel
  induction fuel with
  | zero =>
    intro depth coord st h
    by_cases hd : depth > maxD
    · simpa [build_dependency_graph, hd] using h
    · by_cases hv : coord ∈ st.visited
      · simpa [build_dependency_graph, hd, hv] using h
      · simpa [build_dependency_graph, hd, hv] using h
  | succ fuel ih =>
    intro depth coord st h
    by_cases hd : depth > maxD
    · simpa [build_dependency_graph, hd] using h
    · by_cases hv : coord ∈ st.visited
      · simpa [build_dependency_graph, hd, hv] using h
      · simp only [build_dependency_graph, if_neg hd, if_neg hv]
        have hcf : coord ∉ st.fetched := fun hc => hv (h.2 coord hc)
        have h1 : FetchInv { st with visited := coord :: st.visited } :=
          ⟨h.1, fun c hc => List.mem_cons_of_mem _ (h.2 c hc)⟩
        have hsub1 : st.visited ⊆ coord :: st.visited := fun c hc => List.mem_cons_of_mem _ hc
        have h2 : FetchInv { st with visited := coord :: st.visited, fetched := st.fetched ++ [coord] } := by
          constructor
          · simp [List.nodup_append, h.1, hcf]
          · intro c hc
            rcases List.mem_append.mp hc with hc | hc
            · exact List.mem_cons_of_mem _ (h.2 c hc)
            · simp at hc; simp [hc]
        rcases hurl : construct_pom_url coord repo with m | url
        · simp only [hurl]; exact ⟨h1, hsub1⟩
        · rcases hor : oracle url with _ | tree
          · simp only [hurl, hor]; exact ⟨⟨h2.1, h2.2⟩, hsub1⟩
          · rcases hex : extract_dependencies tree with _ | deps
            · simp only [hurl, hor, hex]; exact ⟨⟨h2.1, h2.2⟩, hsub1⟩
            · simp only [hurl, hor, hex]
              rcases buildDeps_pres _ coord
                  (fun d s => ih (depth + 1) d s) deps
                  { st with visited := coord :: st.visited, fetched := st.fetched ++ [coord] } h2 with ⟨hi, hs⟩
              exact ⟨hi, fun c hc => hs (hsub1 hc)⟩

theorem keys_map_addEdge (g : List (String × List String)) (k v : String) :
    graphKeys (addEdge g k v) = if g.any (fun e => e.1 = k) then graphKeys g else graphKeys g ++ [k] := by
  by_cases h : g.any (fun e => e.1 = k)
  · simp only [addEdge, if_pos h, graphKeys, List.map_map, h, if_true]
    congr 1
    funext e
    by_cases he : e.1 = k <;> simp [he]
  · simp [addEdge, graphKeys, h]

theorem subset_keys_addEdge (g : List (String × List String)) (k v : String) :
    graphKeys g ⊆ graphKeys (addEdge g k v) := by
  rw [keys_map_addEdge]
  by_cases h : g.any (fun e => e.1 = k) <;> simp [h, List.subset_append_left]

theorem mem_keys_addEdge (g : List (String × List String)) (k v : String) :
    k ∈ graphKeys (addEdge g k v) := by
  rw [keys_map_addEdge]
  by_cases h : g.any (fun e => e.1 = k)
  · simp only [h, if_true]
    rcases List.any_eq_true.mp h with ⟨e, he, hek⟩
    simp only [decide_eq_true_eq] at hek
    exact hek ▸ List.mem_map_of_mem Prod.fst he
  · simp [h]

theorem subset_keys_ensureKey (g : List (String × List String)) (k : String) :
    graphKeys g ⊆ graphKeys (ensureKey g k) := by
  unfold ensureKey
  by_cases h : g.any (fun e => e.1 = k) <;> simp [h, graphKeys, List.subset_append_left]

theorem mem_keys_ensureKey (g : List (String × List String)) (k : String) :
    k ∈ graphKeys (ensureKey g k) := by
  unfold ensureKey
  by_cases h : g.any (fun e => e.1 = k)
  · simp only [h, if_true]
    rcases List.any_eq_true.mp h with ⟨e, he, hek⟩
    simp only [decide_eq_true_eq] at hek
    exact hek ▸ List.mem_map_of_mem Prod.fst he
  · simp [h, graphKeys]

theorem buildDeps_keys (step parent)
    (hkeys : ∀ d s, graphKeys s.graph ⊆ graphKeys (step d s).2.graph) :
    ∀ (deps : List String) (st : BuildState),
      graphKeys st.graph ⊆ graphKeys (buildDeps step parent deps st).2.graph := by
  intro deps
  induction deps with
  | nil => intro st; simp [buildDeps]
  | cons d rest ih =>
    intro st
    simp only [buildDeps]
    rcases hs : step d { st with graph := addEdge st.graph parent d } with ⟨s, st2⟩
    have hk := hkeys d { st with graph := addEdge st.graph parent d }
    rw [hs] at hk
    have h0 : graphKeys st.graph ⊆ graphKeys st2.graph :=
      fun c hc => hk (subset_keys_addEdge _ parent d hc)
    cases s with
    | ok => exact fun c hc => ih st2 (h0 hc)
    | err m => exact h0
    | fuelOut => exact h0

theorem build_keys (oracle repo) (maxD : Int) :
    ∀ (fuel : Nat) (depth : Int) (coord : String) (st : BuildState),
      graphKeys st.graph ⊆
        graphKeys (build_dependency_graph oracle repo maxD fuel depth coord st).2.graph := by
  intro fuel
  induction fuel with
  | zero =>
    intro depth coord st
    by_cases hd : depth > maxD
    · simp [build_dependency_graph, hd]
    · by_cases hv : coord ∈ st.visited <;> simp [build_dependency_graph, hd, hv]
  | succ fuel ih =>
    intro depth coord st
    by_cases hd : depth > maxD
    · simp [build_dependency_graph, hd]
    · by_cases hv : coord ∈ st.visited
      · simp [build_dependency_graph, hd, hv]
      · simp only [build_dependency_graph, if_neg hd, if_neg hv]
        rcases hurl : construct_pom_url coord repo with m | url
        · simp only [hurl]; exact fun c hc => hc
        · rcases hor : oracle url with _ | tree
          · simp only [hurl, hor]; exact subset_keys_ensureKey st.graph coord
          · rcases hex : extract_dependencies tree with _ | deps
            · simp only [hurl, hor, hex]; exact fun c hc => hc
            · simp only [hurl, hor, hex]
              exact buildDeps_keys (build_dependency_graph oracle repo maxD fuel (depth + 1))
                coord (fun d s => ih (depth + 1) d s) deps
                { st with visited := coord :: st.visited, fetched := st.fetched ++ [coord] }

theorem buildDeps_parent_key (step parent)
    (hkeys : ∀ d s, graphKeys s.graph ⊆ graphKeys (step d s).2.graph) :
    ∀ (d : String) (rest : List String) (st : BuildState),
      parent ∈ graphKeys (buildDeps step parent (d :: rest) st).2.graph := by
  intro d rest st
  simp only [buildDeps]
  rcases hs : step d { st with graph := addEdge st.graph parent d } with ⟨s, st2⟩
  have hk := hkeys d { st with graph := addEdge st.graph parent d }
  rw [hs] at hk
  have h0 : parent ∈ graphKeys st2.graph := hk (mem_keys_addEdge st.graph parent d)
  cases s with
  | ok => exact buildDeps_keys step parent hkeys rest st2 h0
  | err m => exact h0
  | fuelOut => exact h0

theorem buildDeps_visited_covered (step parent) (Z : String → Prop)
    (hkeys : ∀ d s, graphKeys s.graph ⊆ graphKeys (step d s).2.graph)
    (hstep : ∀ d s, (step d s).1 = .ok →
      ∀ c ∈ (step d s).2.visited, c ∈ s.visited ∨ c ∈ graphKeys (step d s).2.graph ∨ Z c) :
    ∀ (deps : List String) (st : BuildState),
      (buildDeps step parent deps st).1 = .ok →
      ∀ c ∈ (buildDeps step parent deps st).2.visited,
        c ∈ st.visited ∨ c ∈ graphKeys (buildDeps step parent deps st).2.graph ∨ Z c := by
  intro deps
  induction deps with
  | nil => intro st _ c hc; exact Or.inl hc
  | cons d rest ih =>
    intro st hok c hc
    simp only [buildDeps] at hok hc ⊢
    rcases hs : step d { st with graph := addEdge st.graph parent d } with ⟨s, st2⟩
    rw [hs] at hok hc
    have hst := hstep d { st with graph := addEdge st.graph parent d }
    rw [hs] at hst
    cases s with
    | ok =>
      rcases ih st2 hok c hc with h | h | h
      · rcases hst rfl c h with h2 | h2 | h2
        · exact Or.inl h2
        · exact Or.inr (Or.inl (buildDeps_keys step parent hkeys rest st2 h2))
        · exact Or.inr (Or.inr h2)
      · exact Or.inr (Or.inl h)
      · exact Or.inr (Or.inr h)
    | err m => simp at hok
    | fuelOut => simp at hok

theorem build_guard_stop (oracle repo) (maxD : Int) (fuel : Nat) (depth : Int)
    (coord : String) (st : BuildState) (h : depth > maxD ∨ coord ∈ st.visited) :
    build_dependency_graph oracle repo maxD fuel depth coord st = (.ok, st) := by
  rcases h with h | h
  · exact build_depth_gt oracle repo maxD fuel depth coord st h
  · by_cases hd : depth > maxD
    · exact build_depth_gt oracle repo maxD fuel depth coord st hd
    · cases fuel <;> simp [build_dependency_graph, hd, h]

theorem build_step_err (oracle repo) (maxD : Int) (fuel : Nat) (depth : Int)
    (coord : String) (st : BuildState) (m : String)
    (hd : ¬depth > maxD) (hv : coord ∉ st.visited)
    (hurl : construct_pom_url coord repo = .error m) :
    build_dependency_graph oracle repo maxD (fuel + 1) depth coord st
      = (.err m, { st with visited := coord :: st.visited }) := by
  simp [build_dependency_graph, hd, hv, hurl]

theorem build_step_absent (oracle repo) (maxD : Int) (fuel : Nat) (depth : Int)
    (coord : String) (st : BuildState) (url : String)
    (hd : ¬depth > maxD) (hv : coord ∉ st.visited)
    (hurl : construct_pom_url coord repo = .ok url) (hor : oracle url = none) :
    build_dependency_graph oracle repo maxD (fuel + 1) depth coord st
      = (.ok, { st with graph := ensureKey st.graph coord, visited := coord :: st.visited, fetched := st.fetched ++ [coord] }) := by
  simp [build_dependency_graph, hd, hv, hurl, hor]

theorem build_step_crash (oracle repo) (maxD : Int) (fuel : Nat) (depth : Int)
    (coord : String) (st : BuildState) (url : String) (tree : XmlElem)
    (hd : ¬depth > maxD) (hv : coord ∉ st.visited)
    (hurl : construct_pom_url coord repo = .ok url) (hor : oracle url = some tree)
    (hex : extract_dependencies tree = none) :
    build_dependency_graph oracle repo maxD (fuel + 1) depth coord st
      = (.err "AttributeError: NoneType has no attribute strip",
          { st with visited := coord :: st.visited, fetched := st.fetched ++ [coord] }) := by
  simp [build_dependency_graph, hd, hv, hurl, hor, hex]

theorem build_step_deps (oracle repo) (maxD : Int) (fuel : Nat) (depth : Int)
    (coord : String) (st : BuildState) (url : String) (tree : XmlElem) (deps : List String)
    (hd : ¬depth > maxD) (hv : coord ∉ st.visited)
    (hurl : construct_pom_url coord repo = .ok url) (hor : oracle url = some tree)
    (hex : extract_dependencies tree = some deps) :
    build_dependency_graph oracle repo maxD (fuel + 1) depth coord st
      = buildDeps (build_dependency_graph oracle repo maxD fuel (depth + 1)) coord deps
          { st with visited := coord :: st.visited, fetched := st.fetched ++ [coord] } := by
  simp [build_dependency_graph, hd, hv, hurl, hor, hex]

theorem build_visited_covered (oracle repo) (maxD : Int) :
    ∀ (fuel : Nat) (depth : Int) (coord : String) (st : BuildState),
      (build_dependency_graph oracle repo maxD fuel depth coord st).1 = .ok →
      ∀ c ∈ (build_dependency_graph oracle repo maxD fuel depth coord st).2.visited,
        c ∈ st.visited
        ∨ c ∈ graphKeys (build_dependency_graph oracle repo maxD fuel depth coord st).2.graph
        ∨ zeroDepsFetch oracle repo c := by
  intro fuel
  induction fuel with
  | zero =>
    intro depth coord st hok c hc
    by_cases hd : depth > maxD
    · rw [build_guard_stop oracle repo maxD 0 depth coord st (Or.inl hd)] at hc
      exact Or.inl hc
    · by_cases hv : coord ∈ st.visited
      · rw [build_guard_stop oracle repo maxD 0 depth coord st (Or.inr hv)] at hc
        exact Or.inl hc
      · simp [build_dependency_graph, hd, hv] at hok
  | succ fuel ih =>
    intro depth coord st hok c hc
    by_cases hd : depth > maxD
    · rw [build_guard_stop oracle repo maxD (fuel + 1) depth coord st (Or.inl hd)] at hc
      exact Or.inl hc
    · by_cases hv : coord ∈ st.visited
      · rw [build_guard_stop oracle repo maxD (fuel + 1) depth coord st (Or.inr hv)] at hc
        exact Or.inl hc
      · rcases hurl : construct_pom_url coord repo with m | url
        · rw [build_step_err oracle repo maxD fuel depth coord st m hd hv hurl] at hok
          exact absurd hok (by simp)
        · rcases hor : oracle url with _ | tree
          · rw [build_step_absent oracle repo maxD fuel depth coord st url hd hv hurl hor] at hc ⊢
            rcases List.mem_cons.mp hc with h | h
            · exact Or.inr (Or.inl (h ▸ mem_keys_ensureKey st.graph coord))
            · exact Or.inl h
          · rcases hex : extract_dependencies tree with _ | deps
            · rw [build_step_crash oracle repo maxD fuel depth coord st url tree hd hv hurl hor hex] at hok
              exact absurd hok (by simp)
            · rw [build_step_deps oracle repo maxD fuel depth coord st url tree deps hd hv hurl hor hex] at hok hc ⊢
              cases deps with
              | nil =>
                simp only [buildDeps] at hok hc ⊢
                rcases List.mem_cons.mp hc with h | h
                · exact Or.inr (Or.inr (h ▸ ⟨url, tree, hurl, hor, hex⟩))
                · exact Or.inl h
              | cons d rest =>
                have hcov := buildDeps_visited_covered
                  (build_dependency_graph oracle repo maxD fuel (depth + 1)) coord
                  (zeroDepsFetch oracle repo)
                  (fun d2 s => build_keys oracle repo maxD fuel (depth + 1) d2 s)
                  (fun d2 s => ih (depth + 1) d2 s)
                  (d :: rest)
                  { st with visited := coord :: st.visited, fetched := st.fetched ++ [coord] }
                  hok c hc
                rcases hcov with h | h | h
                · rcases List.mem_cons.mp h with h2 | h2
                  · refine Or.inr (Or.inl ?_)
                    subst h2
                    exact buildDeps_parent_key
                      (build_dependency_graph oracle repo maxD fuel (depth + 1)) c
                      (fun d2 s => build_keys oracle repo maxD fuel (depth + 1) d2 s) d rest _
                  · exact Or.inl h2
                · exact Or.inr (Or.inl h)
                · exact Or.inr (Or.inr h)

theorem mem_graphPairs (g : List (String × List String)) (p c : String) :
    (p, c) ∈ graphPairs g ↔ ∃ e ∈ g, e.1 = p ∧ c ∈ e.2 := by
  simp only [graphPairs, List.mem_flatMap, List.mem_map, Prod.mk.injEq]
  constructor
  · rintro ⟨e, he, x, hx, hxp, hxc⟩
    exact ⟨e, he, hxp, hxc ▸ hx⟩
  · rintro ⟨e, he, hep, hc⟩
    exact ⟨e, he, c, hc, hep, rfl⟩

theorem key_unique (g : List (String × List String)) :
    (graphKeys g).Nodup → ∀ e₁ ∈ g, ∀ e₂ ∈ g, e₁.1 = e₂.1 → e₁ = e₂ := by
  induction g with
  | nil => intro _ e₁ h; simp at h
  | cons h rest ih =>
    intro hk e₁ h₁ e₂ h₂ he
    have hcons : h.1 ∉ graphKeys rest ∧ (graphKeys rest).Nodup := List.nodup_cons.mp hk
    rcases List.mem_cons.mp h₁ with he₁ | he₁ <;> rcases List.mem_cons.mp h₂ with he₂ | he₂
    · rw [he₁, he₂]
    · subst he₁
      exact absurd (by rw [he]; exact List.mem_map_of_mem Prod.fst he₂) hcons.1
    · subst he₂
      exact absurd (by rw [← he]; exact List.mem_map_of_mem Prod.fst he₁) hcons.1
    · exact ih hcons.2 e₁ he₁ e₂ he₂ he

theorem graphPairs_nodup (g : List (String × List String))
    (hk : (graphKeys g).Nodup) (he : ∀ e ∈ g, e.2.Nodup) : (graphPairs g).Nodup := by
  induction g with
  | nil => simp [graphPairs]
  | cons h rest ih =>
    have hcons : h.1 ∉ graphKeys rest ∧ (graphKeys rest).Nodup := List.nodup_cons.mp hk
    simp only [graphPairs, List.flatMap_cons]
    apply List.Nodup.append
    · exact (he h (List.mem_cons_self h rest)).map
        (fun x y hxy => by simpa using congrArg Prod.snd hxy)
    · exact ih hcons.2 (fun e hee => he e (List.mem_cons_of_mem h hee))
    · intro x hx hx2
      rcases List.mem_map.mp hx with ⟨c, hc, rfl⟩
      rcases (mem_graphPairs rest h.1 c).mp hx2 with ⟨e, hee, hep, hec⟩
      exact hcons.1 (hep ▸ List.mem_map_of_mem Prod.fst hee)

-- extractDep / depAfterScope characterization lemmas

/-! ### The claims -/

/-- C1 counterexample: the claim as stated is false on the code.  With
`oracleZeroDeps` the root's descriptor fetch succeeds and yields zero
qualifying dependencies; the build returns normally and the root is in the
visited set, yet it is not a key of the resulting graph, because the source
touches `graph[package_coord]` only on the fetch-failure path or when adding
an edge. -/
theorem c1_counterexample :
    (build_dependency_graph oracleZeroDeps "http://r" 1 2 0 "g:a:1" ⟨[], [], []⟩).1 = .ok
    ∧ "g:a:1" ∈ (build_dependency_graph oracleZeroDeps "http://r" 1 2 0 "g:a:1" ⟨[], [], []⟩).2.visited
    ∧ "g:a:1" ∉ graphKeys (build_dependency_graph oracleZeroDeps "http://r" 1 2 0 "g:a:1" ⟨[], [], []⟩).2.graph := by
  refine ⟨by decide, by decide, by decide⟩

/-- C1 (amended): in a completed, exception-free graph build every coordinate
ever added to the visited set appears as a key of the resulting dependency
graph — in particular a coordinate whose descriptor fetch returned absent
appears (with an empty edge set) — UNLESS its descriptor fetch succeeded and
extraction yielded zero qualifying dependencies, in which case it is visited
but missing from the keys. -/
theorem c1_visited_keys (oracle : String → Option XmlElem) (repo : String) (maxD : Int) (coord : String)
    (hok : (build_dependency_graph oracle repo maxD (maxD + 1).toNat 0 coord ⟨[], [], []⟩).1 = .ok) :
    ∀ c ∈ (build_dependency_graph oracle repo maxD (maxD + 1).toNat 0 coord ⟨[], [], []⟩).2.visited,
      c ∈ graphKeys (build_dependency_graph oracle repo maxD (maxD + 1).toNat 0 coord ⟨[], [], []⟩).2.graph
      ∨ zeroDepsFetch oracle repo c := by
  intro c hc
  rcases build_visited_covered oracle repo maxD (maxD + 1).toNat 0 coord ⟨[], [], []⟩ hok c hc with h | h | h
  · simp at h
  · exact Or.inl h
  · exact Or.inr h

/-- C1 witness: the amended theorem applied to a concrete run (all fetches
absent): the root is visited and is a key of the graph. -/
theorem c1_witness :
    "g:a:1" ∈ (build_dependency_graph (fun _ => none) "http://r" 0 (Int.toNat (0 + 1)) 0 "g:a:1" ⟨[], [], []⟩).2.visited
    ∧ ("g:a:1" ∈ graphKeys (build_dependency_graph (fun _ => none) "http://r" 0 (Int.toNat (0 + 1)) 0 "g:a:1" ⟨[], [], []⟩).2.graph
        ∨ zeroDepsFetch (fun _ => none) "http://r" "g:a:1") := by
  exact ⟨by decide, c1_visited_keys (fun _ => none) "http://r" 0 "g:a:1" (by decide) "g:a:1" (by decide)⟩

-- C2

/-- C2 counterexample: the claim as stated is false on the code.  With
`max_depth = 0` the root g:a:1 is reached exactly at the maximum depth, and
the builder DOES fetch its descriptor (the fetch log is nonempty) and records
its dependency as an outgoing edge, so the node is not a leaf. -/
theorem c2_counterexample :
    (build_dependency_graph oracleOneDep "http://r" 0 1 0 "g:a:1" ⟨[], [], []⟩).2.fetched = ["g:a:1"]
    ∧ (build_dependency_graph oracleOneDep "http://r" 0 1 0 "g:a:1" ⟨[], [], []⟩).2.graph
        = [("g:a:1", ["d:d:1"])] := by
  exact ⟨by decide, by decide⟩

/-- C2 (amended): a node reached exactly at `max_depth` (and not yet visited)
is visited, its descriptor IS fetched, and its qualifying dependencies are
recorded as outgoing edges; only the recursion into its children is cut off:
the children calls at depth `max_depth + 1` return immediately, so no new
coordinate beyond the node itself enters the visited set. -/
theorem c2_max_depth_step (oracle : String → Option XmlElem) (repo : String) (maxD : Int) (fuel : Nat)
    (coord : String) (st : BuildState) (url : String) (tree : XmlElem) (deps : List String)
    (hv : coord ∉ st.visited)
    (hurl : construct_pom_url coord repo = .ok url)
    (hor : oracle url = some tree)
    (hex : extract_dependencies tree = some deps) :
    build_dependency_graph oracle repo maxD (fuel + 1) maxD coord st
      = (.ok, { graph := deps.foldl (fun g d => addEdge g coord d) st.graph,
                visited := coord :: st.visited,
                fetched := st.fetched ++ [coord] }) := by
  rw [build_step_deps oracle repo maxD fuel maxD coord st url tree deps (by omega) hv hurl hor hex,
      buildDeps_of_step_ok _ coord
        (fun d s => build_depth_gt oracle repo maxD fuel (maxD + 1) d s (by omega)) deps _]

/-- C2 witness: the amended theorem evaluated on a concrete run at
`max_depth = 0`: the root is fetched, its edge recorded, its child not
visited. -/
theorem c2_witness :
    build_dependency_graph oracleOneDep "http://r" 0 1 0 "g:a:1" ⟨[], [], []⟩
      = (.ok, { graph := [("g:a:1", ["d:d:1"])], visited := ["g:a:1"], fetched := ["g:a:1"] }) := by
  rw [c2_max_depth_step oracleOneDep "http://r" 0 0 "g:a:1" ⟨[], [], []⟩ "http://r/g/a/1/a-1.pom"
      pomOneDep ["d:d:1"] (by decide) rfl rfl rfl]
  rfl

-- C3

/-- C3: for every oracle (including cyclic descriptor fixtures), repository
URL, depth bound and root coordinate, a graph build started with a recursion
allowance of `max_depth + 1` fetch levels never exhausts that allowance
(fetch calls are confined to `max_depth + 1` nested levels, which is the
termination argument), and no coordinate is ever fetched twice: the visited
set check prevents any revisit. -/
theorem c3_termination (oracle : String → Option XmlElem) (repo : String) (maxD : Int) (coord : String) :
    (build_dependency_graph oracle repo maxD (maxD + 1).toNat 0 coord ⟨[], [], []⟩).1.isTruncated = false
    ∧ (build_dependency_graph oracle repo maxD (maxD + 1).toNat 0 coord ⟨[], [], []⟩).2.fetched.Nodup := by
  constructor
  · have h := build_ne_fuelOut oracle repo maxD (maxD + 1).toNat 0 coord ⟨[], [], []⟩ (by omega)
    rcases hs : (build_dependency_graph oracle repo maxD (maxD + 1).toNat 0 coord ⟨[], [], []⟩).1 with _ | m | _
    · rfl
    · rfl
    · exact absurd hs h
  · exact (build_pres oracle repo maxD (maxD + 1).toNat 0 coord ⟨[], [], []⟩
      ⟨List.nodup_nil, by simp⟩).1.1

-- C4

/-- C4 counterexample: the claim as stated is false on the code.  The
coordinate string of two colons splits into exactly 3 segments that are all
empty, so by the claim it must raise `InvalidCoordinateFormat`; the code
checks only the segment count and happily returns a URL. -/
theorem c4_counterexample :
    (splitChar ':' "::".data).map String.mk = ["", "", ""]
    ∧ construct_pom_url "::" "http://r" = .ok "http://r////-.pom" := by
  exact ⟨by decide, rfl⟩

/-- C4 (amended): the URL mapper raises the `InvalidCoordinateFormat` error
(`ValueError`), with a message naming the offending string, exactly when the
split on the colon separator does not yield exactly 3 segments — the
segments are NOT required to be non-empty; any 3-segment string succeeds. -/
theorem c4_error_iff (package_coord repo_url : String) :
    ((splitChar ':' package_coord.data).length = 3 →
      ∃ url, construct_pom_url package_coord repo_url = .ok url)
    ∧ ((splitChar ':' package_coord.data).length ≠ 3 →
      construct_pom_url package_coord repo_url = .error (coordErrorMsg package_coord)) := by
  constructor
  · intro h3
    rcases hs : splitChar ':' package_coord.data with _ | ⟨a, _ | ⟨b, _ | ⟨c, _ | rest⟩⟩⟩ <;>
      rw [hs] at h3 <;> simp at h3
    exact ⟨rstripSlash repo_url ++ "/" ++ replaceChar '.' ['/'] (String.mk a) ++ "/"
        ++ String.mk b ++ "/" ++ String.mk c ++ "/" ++ (String.mk b ++ "-" ++ String.mk c ++ ".pom"),
      by unfold construct_pom_url; rw [hs]; simp only [List.map]⟩
  · intro h3
    rcases hs : splitChar ':' package_coord.data with _ | ⟨a, _ | ⟨b, _ | ⟨c, _ | rest⟩⟩⟩
    · simp [construct_pom_url, hs, coordErrorMsg]
    · simp [construct_pom_url, hs, coordErrorMsg]
    · simp [construct_pom_url, hs, coordErrorMsg]
    · exact absurd (by simp [hs]) h3
    · simp [construct_pom_url, hs, coordErrorMsg]

/-- C4 witness: the amended theorem applied to a valid 3-segment coordinate
and to a 2-segment coordinate. -/
theorem c4_witness :
    (∃ url, construct_pom_url "a:b:c" "http://r" = .ok url)
    ∧ construct_pom_url "a:b" "http://r" = .error (coordErrorMsg "a:b") := by
  exact ⟨(c4_error_iff "a:b:c" "http://r").1 (by decide),
         (c4_error_iff "a:b" "http://r").2 (by decide)⟩

/-- C5 counterexample: the claim as stated is false on the code.  A
dependency whose version text is an unresolvable placeholder (no matching
property) is NOT skipped: the extractor emits the coordinate with the
placeholder text verbatim in the version slot. -/
theorem c5_counterexample :
    extract_dependencies pomVerbatimVersion = some ["g:a:" ++ phString "u"] := by
  decide

/-- C5 (amended): the extractor skips a declaration exactly when its version
element is absent or has no (or empty) text BEFORE substitution; a version
text that is present is always emitted, and in particular a placeholder that
survives substitution unresolved is emitted verbatim, not skipped. -/
theorem c5_version_skip (props : List (String × String)) (dep g a : XmlElem) (gt at2 : String)
    (hsc : findChild dep (mvn "scope") = none)
    (hg : findChild dep (mvn "groupId") = some g) (hgt : g.text = some gt) (hg2 : gt ≠ "")
    (ha : findChild dep (mvn "artifactId") = some a) (hat : a.text = some at2) (ha2 : at2 ≠ "") :
    (findChild dep (mvn "version") = none → extractDep props dep = .skip)
    ∧ (∀ v, findChild dep (mvn "version") = some v → (v.text = none ∨ v.text = some "") →
        extractDep props dep = .skip)
    ∧ (∀ v t, findChild dep (mvn "version") = some v → v.text = some t → t ≠ "" →
        ∃ c, extractDep props dep = .emit c)
    ∧ (∀ v name, findChild dep (mvn "version") = some v → v.text = some (phString name) →
        name ≠ "" → '\x7d' ∉ name.data → props.find? (fun p => p.1 = name) = none →
        extractDep props dep = .emit (pyStrip gt ++ ":" ++ pyStrip at2 ++ ":" ++ phString name)) := by
  refine ⟨?_, ?_, ?_, ?_⟩
  · intro hv
    rw [extractDep_noscope props dep hsc, depAfterScope_no_version props dep g a hg ha hv]
  · intro v hv hvt
    rw [extractDep_noscope props dep hsc, depAfterScope_version_textless props dep g a v hg ha hv hvt]
  · intro v t hv hvt ht
    exact ⟨_, by rw [extractDep_noscope props dep hsc,
      depAfterScope_emit props dep g a v t hg ha hv hvt ht]⟩
  · intro v name hv hvt hn hbr hmiss
    rw [extractDep_noscope props dep hsc,
        depAfterScope_emit props dep g a v (phString name) hg ha hv hvt (phString_ne_empty name)]
    have hsp : pyStrip (phString name) = phString name := pyStrip_phString name
    simp only [hgt, hat, if_neg hg2, if_neg ha2, hsp, if_neg (phString_ne_empty name),
      subst_placeholder_miss props name hn hbr hmiss]

/-- C5 witness: the amended theorem applied to a concrete declaration whose
version is an unresolvable placeholder: it is emitted verbatim. -/
theorem c5_witness :
    extractDep [] (depDecl "g" "a" (phString "u"))
      = .emit (pyStrip "g" ++ ":" ++ pyStrip "a" ++ ":" ++ phString "u") := by
  exact (c5_version_skip [] (depDecl "g" "a" (phString "u")) (nsLeaf "groupId" "g")
      (nsLeaf "artifactId" "a") "g" "a" rfl rfl rfl (by decide) rfl rfl
      (by decide)).2.2.2 (nsLeaf "version" (phString "u")) "u" rfl rfl (by decide) (by decide) rfl

-- C6

/-- C6 counterexample: the claim as stated is false on the code.  A document
whose only dependency declaration sits inside a dependency-management
section — it has no top-level dependencies element at all — still yields
that declaration, because the source's descendant query matches dependencies
elements anywhere in the document. -/
theorem c6_counterexample :
    extract_dependencies (dmOnlyPom "g" "a" "1.0") = some ["g:a:1.0"]
    ∧ (dmOnlyPom "g" "a" "1.0").children.all (fun c => !(c.tag == mvn "dependencies")) = true := by
  exact ⟨by decide, by decide⟩

/-- C6 (amended): the extractor emits declarations found under ANY
descendant `dependencies` element, including one nested inside a
`dependencyManagement` section: for every well-formed declaration placed
there, its coordinate is extracted. -/
theorem c6_dep_management (g a v : String)
    (hg : g ≠ "") (ha : a ≠ "") (hv : v ≠ "") (hstrip : pyStrip v = v) (hd : '$' ∉ v.data) :
    extract_dependencies (dmOnlyPom g a v) = some [pyStrip g ++ ":" ++ pyStrip a ++ ":" ++ v] := by
  have h0 : extract_dependencies (dmOnlyPom g a v)
      = (match extractDep [] (depDecl g a v) with
          | .crash => none
          | .skip => some []
          | .emit c => some [c]) := rfl
  rw [h0, extractDep_depDecl [] g a v hg ha hv hstrip hd]

/-- C6 witness: the amended theorem applied to concrete coordinates. -/
theorem c6_witness :
    extract_dependencies (dmOnlyPom "gr" "ar" "2.0")
      = some [pyStrip "gr" ++ ":" ++ pyStrip "ar" ++ ":" ++ "2.0"] := by
  exact c6_dep_management "gr" "ar" "2.0" (by decide) (by decide) (by decide) (by decide) (by decide)

-- C7

/-- C7: for a declaration with groupId, artifactId and nonempty version text,
the scope filter of the extractor: with no scope element the declaration is
emitted (absent scope is treated as compile); with a declared scope text the
declaration is emitted exactly when the stripped text is one of compile,
runtime or system, and skipped for any other value — in particular test and
provided. -/
theorem c7_scope_filter (props : List (String × String)) (dep g a v : XmlElem) (t : String)
    (hg : findChild dep (mvn "groupId") = some g)
    (ha : findChild dep (mvn "artifactId") = some a)
    (hv : findChild dep (mvn "version") = some v)
    (hvt : v.text = some t) (htne : t ≠ "") :
    (findChild dep (mvn "scope") = none → ∃ c, extractDep props dep = .emit c)
    ∧ (∀ sc s, findChild dep (mvn "scope") = some sc → sc.text = some s →
        ((pyStrip s = "compile" ∨ pyStrip s = "runtime" ∨ pyStrip s = "system") →
          ∃ c, extractDep props dep = .emit c)
        ∧ (¬(pyStrip s = "compile" ∨ pyStrip s = "runtime" ∨ pyStrip s = "system") →
          extractDep props dep = .skip)) := by
  constructor
  · intro hsc
    exact ⟨_, by rw [extractDep_noscope props dep hsc,
      depAfterScope_emit props dep g a v t hg ha hv hvt htne]⟩
  · intro sc s hsc hst
    constructor
    · intro hok
      exact ⟨_, by rw [extractDep_scope_ok props dep sc s hsc hst hok,
        depAfterScope_emit props dep g a v t hg ha hv hvt htne]⟩
    · intro hbad
      exact extractDep_scope_bad props dep sc s hsc hst hbad

/-- C7 witness: the theorem applied to concrete declarations with scope
test (skipped) and scope compile (emitted). -/
theorem c7_witness :
    extractDep [] (depDeclS "g" "a" "1" "test") = .skip
    ∧ ∃ c, extractDep [] (depDeclS "g" "a" "1" "compile") = .emit c := by
  constructor
  · exact ((c7_scope_filter [] (depDeclS "g" "a" "1" "test") (nsLeaf "groupId" "g")
      (nsLeaf "artifactId" "a") (nsLeaf "version" "1") "1" rfl rfl rfl rfl
      (by decide)).2 (nsLeaf "scope" "test") "test" rfl rfl).2 (by decide)
  · exact ((c7_scope_filter [] (depDeclS "g" "a" "1" "compile") (nsLeaf "groupId" "g")
      (nsLeaf "artifactId" "a") (nsLeaf "version" "1") "1" rfl rfl rfl rfl
      (by decide)).2 (nsLeaf "scope" "compile") "compile" rfl rfl).1 (by decide)

-- C8

/-- C8: property substitution replaces an occurrence of a placeholder whose
identifier is a key of the mapping with the mapped value, leaves an
occurrence with no matching key verbatim (never blank), and is single-pass:
the substituted value is inserted as-is — only the remainder of the original
text after the occurrence keeps being processed, as the right-hand sides
show. -/
theorem c8_substitution (props : List (String × String)) (pre name post : String)
    (hpre : '$' ∉ pre.data) (hname : name ≠ "") (hbr : '\x7d' ∉ name.data) :
    (∀ v, props.find? (fun p => p.1 = name) = some (name, v) →
      substitute_properties (pre ++ "$" ++ "\x7b" ++ name ++ "\x7d" ++ post) props
        = pre ++ v ++ substitute_properties post props)
    ∧ (props.find? (fun p => p.1 = name) = none →
      substitute_properties (pre ++ "$" ++ "\x7b" ++ name ++ "\x7d" ++ post) props
        = pre ++ "$" ++ "\x7b" ++ name ++ "\x7d" ++ substitute_properties post props) := by
  exact ⟨fun v hv => subst_hit props pre name post hpre hname hbr v hv,
         fun hm => subst_miss props pre name post hpre hname hbr hm⟩

/-- C8 witness: the theorem applied to a mapping whose value itself contains
a placeholder: the value is inserted without re-substitution. -/
theorem c8_witness :
    substitute_properties ("a" ++ "$" ++ "\x7b" ++ "k" ++ "\x7d" ++ "b")
        [("k", "$\x7bk2\x7d"), ("k2", "X")]
      = "a" ++ "$\x7bk2\x7d" ++ substitute_properties "b" [("k", "$\x7bk2\x7d"), ("k2", "X")] := by
  exact (c8_substitution [("k", "$\x7bk2\x7d"), ("k2", "X")] "a" "k" "b"
    (by decide) (by decide) (by decide)).1 "$\x7bk2\x7d" (by decide)

-- C9

/-- C9: the DOT serialization is the fixed header, one edge statement per
(parent, child) pair of the graph in storage order — with both coordinates
quoted and internal quote characters escaped by `edgeStmt`/`escQuote` — and
the footer; the pair list has no duplicates (exactly one statement per
pair), and a parent with an empty edge set contributes no pair, hence no
statement. -/
theorem c9_dot_edges (graph : List (String × List String))
    (hk : (graphKeys graph).Nodup) (he : ∀ e ∈ graph, e.2.Nodup) :
    generate_graphviz_dot graph
      = "digraph G \x7b\n    node [shape=box];\n"
        ++ String.join ((graphPairs graph).map (fun pc => edgeStmt pc.1 pc.2))
        ++ "\x7d\n"
    ∧ (graphPairs graph).Nodup
    ∧ ∀ e ∈ graph, e.2 = [] → ∀ c, (e.1, c) ∉ graphPairs graph := by
  refine ⟨?_, graphPairs_nodup graph hk he, ?_⟩
  · unfold generate_graphviz_dot
    congr 1
    congr 1
    congr 1
    simp [graphPairs, List.map_flatMap, List.map_map]
    rfl
  · intro e he2 hemp c hc
    rcases (mem_graphPairs graph e.1 c).mp hc with ⟨e2, he3, hp, hcmem⟩
    have := key_unique graph hk e2 he3 e he2 hp
    rw [this, hemp] at hcmem
    simp at hcmem

/-- C9 witness: the theorem applied to a concrete graph with a two-edge
parent and an empty parent. -/
theorem c9_witness :
    (graphPairs [("p", ["c1", "c2"]), ("q", [])]).Nodup
    ∧ ("q", "x") ∉ graphPairs [("p", ["c1", "c2"]), ("q", [])] := by
  have h := c9_dot_edges [("p", ["c1", "c2"]), ("q", [])] (by decide) (by decide)
  exact ⟨h.2.1, h.2.2 ("q", []) (by decide) rfl "x"⟩

-- C10

/-- C10: a well-formed parsed descriptor containing a dependency declaration
whose scope element is present but has no text content makes
`extract_dependencies` raise: the scope check dereferences the absent text
(`scope.text.strip()` on `None`), modelled by the `none` result, instead of
treating the scope as unspecified or skipping the declaration. -/
theorem c10_scope_crash :
    ((findallDD pomScopeNoText (mvn "dependencies") (mvn "dependency")).any
      (fun d => match findChild d (mvn "scope") with
        | some sc => sc.text.isNone
        | none => false)) = true
    ∧ extract_dependencies pomScopeNoText = none := by
  exact ⟨by decide, by decide⟩
